import Mathlib

/-!
Shallow embedding of mysql-sniffer.go.

Byte strings are modelled as `List Nat` (one element per byte); Go's
fixed 10000-slot `uint64` arrays are modelled as `List Nat`; nil-able Go
slices and pointers are modelled with `Option`.  Go map iteration is not
needed by any claim settled here; the aggregate map `qbuf` is modelled as
an association list whose keys are the aggregation texts.
-/

namespace MysqlSniffer

/-- Token type constant TOKEN_WORD from the Go source. -/
def TOKEN_WORD : Nat := 0

/-- Token type constant TOKEN_QUOTE. -/
def TOKEN_QUOTE : Nat := 1

/-- Token type constant TOKEN_NUMBER. -/
def TOKEN_NUMBER : Nat := 2

/-- Token type constant TOKEN_WHITESPACE. -/
def TOKEN_WHITESPACE : Nat := 3

/-- Token type constant TOKEN_OTHER. -/
def TOKEN_OTHER : Nat := 4

/-- Number of latency sample slots (Go TIME_BUCKETS). -/
def TIME_BUCKETS : Nat := 10000

/-- The query command byte (Go COM_QUERY); `Int` because Go packet types
use -1 as the no-packet sentinel. -/
def COM_QUERY : Int := 3

/-- Bytes of a string literal (ASCII, one byte per char). -/
def strBytes (s : String) : List Nat := s.data.map Char.toNat

/-- carvePacket (Go lines 404-429): tries to pull a packet out of a slice
of bytes.  Returns (ptype, data, new buffer); ptype -1 means no complete
frame; `none` for the new buffer models Go setting `*buf = nil`.
The 3-byte length is `buf[0] + buf[1]<<8 + buf[2]<<16`. -/
def carvePacket (buf : List Nat) : Int × List Nat × Option (List Nat) :=
  let datalen := buf.length
  if datalen < 5 then (-1, [], some buf)
  else
    let size := buf[0]! + buf[1]! * 256 + buf[2]! * 65536
    if size = 0 ∨ datalen < size + 4 then (-1, [], some buf)
    else
      -- end := size + 4; data := (*buf)[5 : size+4]
      let endv := size + 4
      let ptype : Int := (buf[4]! : Int)
      let data := (buf.drop 5).take (size - 1)
      if endv ≥ datalen then (ptype, data, none)
      else (ptype, data, some (buf.drop endv))

/-- The quote-scanning loop of scanToken (Go lines 503-519).  `i` is the
current index into the whole query, `l` the suffix starting at index `i`,
`totalLen` the length of the whole query (returned when unterminated). -/
def scanQuoteLoop (startedWith totalLen : Nat) (escaped : Bool) (i : Nat) : List Nat → Nat
  | [] => totalLen
  | c :: rest =>
    if c = startedWith then
      if escaped then scanQuoteLoop startedWith totalLen false (i + 1) rest
      else i + 1
    else if c = 92 then scanQuoteLoop startedWith totalLen true (i + 1) rest
    else scanQuoteLoop startedWith totalLen false (i + 1) rest

/-- The maximal-run loops of scanToken (digit run, whitespace run, word
run): advance while `pred` holds, return the index of the first failure,
or `totalLen` when the run reaches the end of the query. -/
def scanRun (pred : Nat → Bool) (totalLen : Nat) (i : Nat) : List Nat → Nat
  | [] => totalLen
  | c :: rest => if pred c then scanRun pred totalLen (i + 1) rest else i

/-- Digit predicate of the number-run loop (Go line 524). -/
def isDigitB (c : Nat) : Bool := decide (48 ≤ c ∧ c ≤ 57)

/-- Whitespace predicate of the whitespace-run loop (Go line 535). -/
def isWhitespaceB (c : Nat) : Bool := decide (c = 32 ∨ (9 ≤ c ∧ c ≤ 13))

/-- Word-character predicate of the word-run loop (Go lines 546-551):
digits, letters, `$` and `_`. -/
def isWordB (c : Nat) : Bool :=
  decide ((48 ≤ c ∧ c ≤ 57) ∨ (65 ≤ c ∧ c ≤ 90) ∨ (97 ≤ c ∧ c ≤ 122) ∨ c = 36 ∨ c = 95)

/-- scanToken (Go lines 490-565): length and type of the first token of a
query.  The empty-query case is a fatal invariant violation in Go; it is
modelled by the harmless result (0, TOKEN_OTHER) and never reached from
`cleanupQuery`.  `rest.length + 1` is `len(query)`. -/
def scanToken (verbose noclean : Bool) (query : List Nat) : Nat × Nat :=
  match query with
  | [] => (0, TOKEN_OTHER)
  | b :: rest =>
    if verbose && noclean then (rest.length + 1, TOKEN_OTHER)
    else if b = 39 ∨ b = 34 then
      (scanQuoteLoop b (rest.length + 1) false 1 rest, TOKEN_QUOTE)
    else if 48 ≤ b ∧ b ≤ 57 then
      (scanRun isDigitB (rest.length + 1) 1 rest, TOKEN_NUMBER)
    else if b = 32 ∨ (9 ≤ b ∧ b ≤ 13) then
      (scanRun isWhitespaceB (rest.length + 1) 1 rest, TOKEN_WHITESPACE)
    else if (65 ≤ b ∧ b ≤ 90) ∨ (97 ≤ b ∧ b ≤ 122) then
      (scanRun isWordB (rest.length + 1) 1 rest, TOKEN_WORD)
    else (1, TOKEN_OTHER)

/-- The tokenization loop of cleanupQuery (Go lines 570-588).  The Go loop
index strictly increases by at least one each iteration, so the loop runs
at most `len(query)` iterations; `fuel` makes that bound explicit (it is
always called with `fuel = query.length`). -/
def tokenizeFuel (verbose noclean : Bool) : Nat → List Nat → List (List Nat × Nat)
  | _, [] => []
  | 0, _ :: _ => []
  | fuel + 1, q =>
    let r := scanToken verbose noclean q
    (q.take r.1, r.2) :: tokenizeFuel verbose noclean fuel (q.drop r.1)

/-- Full tokenization of a query, as performed by the cleanupQuery loop. -/
def tokenize (verbose noclean : Bool) (q : List Nat) : List (List Nat × Nat) :=
  tokenizeFuel verbose noclean q.length q

/-- The per-token emission of cleanupQuery (Go switch, lines 573-585):
words and other tokens verbatim, numbers and quoted literals become `?`
(byte 63), whitespace runs become a single space (byte 32). -/
def tokenEmit (span : List Nat) (toktype : Nat) : List Nat :=
  if toktype = TOKEN_WORD ∨ toktype = TOKEN_OTHER then span
  else if toktype = TOKEN_NUMBER ∨ toktype = TOKEN_QUOTE then [63]
  else [32]

/-- Split at the first occurrence of byte `sep` (helper for Go
strings.SplitN on a one-byte separator). -/
def splitFirst (sep : Nat) : List Nat → Option (List Nat × List Nat)
  | [] => none
  | c :: rest =>
    if c = sep then some ([], rest)
    else
      match splitFirst sep rest with
      | none => none
      | some (pre, post) => some (c :: pre, post)

/-- Go strings.SplitN(s, sep, n) for a one-byte separator: at most `n`
fields, the last field being the unsplit remainder. -/
def splitNOn (sep : Nat) : Nat → List Nat → List (List Nat)
  | 0, _ => []
  | 1, s => [s]
  | n + 2, s =>
    match splitFirst sep s with
    | none => [s]
    | some (pre, post) => pre :: splitNOn sep (n + 1) post

/-- strings.SplitN(s, ":", 2)[1]: everything after the first colon.  Only
used under a strings.Contains guard, so the `none` branch is unreachable
there. -/
def afterColon (s : List Nat) : List Nat :=
  match splitFirst 58 s with
  | some p => p.2
  | none => []

/-- The route-annotation shortening of cleanupQuery (Go lines 593-598):
bytes 47,42 are "/*" and 42,47 are "*/"; the rebuilt text is
parts[0] + " /* " + afterColon parts[2] + " */ " + parts[4]. -/
def routeShorten (tmp : List Nat) : List Nat :=
  let parts := splitNOn 32 5 tmp
  if 5 ≤ parts.length ∧ parts[1]! = [47, 42] ∧ parts[3]! = [42, 47] then
    if parts[2]!.contains 58 then
      parts[0]! ++ [32, 47, 42, 32] ++ afterColon parts[2]! ++ [32, 42, 47, 32] ++ parts[4]!
    else tmp
  else tmp

/-- strings.Replace(tmp, "?, ", "", -1): left-to-right removal of every
non-overlapping occurrence of bytes 63,44,32. -/
def replaceQMark : List Nat → List Nat
  | 63 :: 44 :: 32 :: rest => replaceQMark rest
  | c :: rest => c :: replaceQMark rest
  | [] => []

/-- cleanupQuery (Go lines 567-601). -/
def cleanupQuery (verbose noclean : Bool) (query : List Nat) : List Nat :=
  let tmp := ((tokenize verbose noclean query).map fun p => tokenEmit p.1 p.2).flatten
  replaceQMark (routeShorten tmp)

/-- Per-key aggregate (Go struct queryData). -/
structure queryData where
  count : Nat
  bytes : Nat
  times : List Nat
deriving DecidableEq

/-- Per-flow state (Go struct source).  `qdata` is a pointer to the
aggregate shared with the qbuf map; it is modelled as the aggregate's key
(entries are never removed from qbuf, so the key identifies the target). -/
structure source where
  src : List Nat
  srcip : List Nat
  synced : Bool
  reqbuffer : Option (List Nat)
  resbuffer : Option (List Nat)
  reqSent : Option Nat
  reqTimes : List Nat
  qbytes : Nat
  qdata : Option (List Nat)
  qtext : List Nat
deriving DecidableEq

/-- One item of the compiled output-format program (Go `format`,
a []interface{} holding strings and the F_QUERY/F_ROUTE/F_SOURCE/F_SOURCEIP
tags; F_NONE and unknown tags are fatal at startup and never stored). -/
inductive formatItem where
  | lit (s : List Nat)
  | fquery
  | froute
  | fsource
  | fsourceip
deriving DecidableEq

/-- The configuration globals read by processPacket. -/
structure Config where
  dirty : Bool
  verbose : Bool
  noclean : Bool
  format : List formatItem
deriving DecidableEq

/-- The mutable process-wide globals of the Go program. -/
structure Globals where
  qbuf : List (List Nat × queryData)
  querycount : Nat
  times : List Nat
  rcvd : Nat
  rcvd_sync : Nat
  desyncs : Nat
  streams : Nat
deriving DecidableEq

/-- The flow created by handlePacket (Go line 478):
`&source{src: src, srcip: srcip, synced: false}`, every other field at its
zero value. -/
def newSource (src srcip : List Nat) : source :=
  { src := src, srcip := srcip, synced := false, reqbuffer := none,
    resbuffer := none, reqSent := none,
    reqTimes := List.replicate TIME_BUCKETS 0,
    qbytes := 0, qdata := none, qtext := [] }

/-- The F_ROUTE arm of processPacket (Go lines 365-378). -/
def routeText (verbose noclean : Bool) (pdata : List Nat) : List Nat :=
  let parts := splitNOn 32 5 pdata
  if 4 ≤ parts.length ∧ parts[1]! = [47, 42] ∧ parts[3]! = [42, 47] then
    if parts[2]!.contains 58 then afterColon parts[2]! else parts[2]!
  else strBytes "(unknown) " ++ cleanupQuery verbose noclean pdata

/-- Building the aggregation text from the format program
(Go lines 351-391). -/
def formatText (cfg : Config) (src srcip pdata : List Nat) : List Nat :=
  cfg.format.foldl
    (fun text it =>
      match it with
      | .lit s => text ++ s
      | .fquery =>
        text ++ (if cfg.dirty then pdata else cleanupQuery cfg.verbose cfg.noclean pdata)
      | .froute => text ++ routeText cfg.verbose cfg.noclean pdata
      | .fsource => text ++ src
      | .fsourceip => text ++ srcip)
    []

/-- qbuf lookup-or-create followed by count++ / bytes += plen
(Go lines 392-398). -/
def upsertQ : List (List Nat × queryData) → List Nat → Nat → List (List Nat × queryData)
  | [], k, plen => [(k, { count := 1, bytes := plen, times := List.replicate TIME_BUCKETS 0 })]
  | (k', qd) :: rest, k, plen =>
    if k' = k then (k', { qd with count := qd.count + 1, bytes := qd.bytes + plen }) :: rest
    else (k', qd) :: upsertQ rest k plen

/-- A mutation through the rs.qdata pointer, modelled as an update of qbuf
at the pointed-to key. -/
def updateQD : List (List Nat × queryData) → List Nat → (queryData → queryData) → List (List Nat × queryData)
  | [], _, _ => []
  | (k', qd) :: rest, k, f =>
    if k' = k then (k', f qd) :: rest else (k', qd) :: updateQD rest k f

/-- processPacket after the synchronization gate (Go lines 299-400):
timing bookkeeping for responses, counting/keying for requests. -/
def processAfterSync (cfg : Config) (g : Globals) (rs : source) (request : Bool)
    (ptype : Int) (pdata : List Nat) (now randn : Nat) : Globals × source :=
  if ptype = -1 then (g, rs)
  else
    let plen := pdata.length
    if request then
      -- Go lines 341-399
      let rs := { rs with reqSent := some now }
      let g := { g with querycount := g.querycount + 1 }
      let text := formatText cfg rs.src rs.srcip pdata
      let g := { g with qbuf := upsertQ g.qbuf text plen }
      (g, { rs with qtext := text, qdata := some text, qbytes := plen })
    else
      -- Go lines 306-339
      match rs.reqSent with
      | none =>
        match rs.qdata with
        | some k =>
          ({ g with qbuf := updateQD g.qbuf k (fun qd => { qd with bytes := qd.bytes + plen }) }, rs)
        | none => (g, rs)
      | some t0 =>
        let reqtime := now - t0
        let rs' := { rs with reqTimes := rs.reqTimes.set randn reqtime }
        let g := { g with times := g.times.set randn reqtime }
        let g :=
          match rs'.qdata with
          | some k =>
            let f := fun qd =>
              { qd with times := qd.times.set randn reqtime, bytes := qd.bytes + plen }
            { g with qbuf := updateQD g.qbuf k f }
          | none => g
        (g, { rs' with reqSent := none })

/-- processPacket (Go lines 257-400).  `now` stands for the current clock
reading (time.Now / time.Since) and `randn` for rand.Intn(TIME_BUCKETS);
both are inputs of the step since they are environment-provided. -/
def processPacket (cfg : Config) (g : Globals) (rs : source) (request : Bool)
    (data : List Nat) (now randn : Nat) : Globals × source :=
  let g := { g with
    rcvd := g.rcvd + 1,
    rcvd_sync := if rs.synced then g.rcvd_sync + 1 else g.rcvd_sync }
  let step :=
    if request then
      let gr :=
        if rs.resbuffer.isSome then
          ({ g with desyncs := g.desyncs + 1 },
           { rs with resbuffer := none, synced := false })
        else (g, rs)
      -- rs.reqbuffer = data; ptype, pdata = carvePacket(&rs.reqbuffer)
      let c := carvePacket data
      (gr.1, { gr.2 with reqbuffer := c.2.2 }, c.1, c.2.1)
    else
      -- rs.resbuffer = nil; ptype, pdata = 0, data
      (g, { rs with resbuffer := none }, (0 : Int), data)
  match step with
  | (g, rs, ptype, pdata) =>
    if rs.synced then processAfterSync cfg g rs request ptype pdata now randn
    else if request = true ∧ ptype = COM_QUERY then
      processAfterSync cfg g { rs with synced := true } request ptype pdata now randn
    else (g, { rs with reqbuffer := none, resbuffer := none })

/-- One ingestion event delivered to a flow. -/
structure Call where
  request : Bool
  data : List Nat
  now : Nat
  randn : Nat
deriving DecidableEq

/-- A request-direction call whose chunk carves a frame with the query
command byte. -/
def carvesQuery (c : Call) : Prop :=
  c.request = true ∧ (carvePacket c.data).1 = COM_QUERY

instance : DecidablePred carvesQuery := fun c =>
  inferInstanceAs (Decidable (c.request = true ∧ (carvePacket c.data).1 = COM_QUERY))

/-- Folding a sequence of ingestion calls over one flow. -/
def runCalls (cfg : Config) (g : Globals) (rs : source) : List Call → Globals × source
  | [] => (g, rs)
  | c :: rest =>
    let p := processPacket cfg g rs c.request c.data c.now c.randn
    runCalls cfg p.1 p.2 rest

/-- Accumulator of the calculateTimes loop. -/
structure CalcAcc where
  counts : Nat
  total : Nat
  min : Nat
  max : Nat
  has_min : Bool
deriving DecidableEq

/-- Loop body of calculateTimes (Go lines 172-187): zero slots are
skipped, min/max updated, sum and count accumulated. -/
def calcStep (acc : CalcAcc) (val : Nat) : CalcAcc :=
  if val = 0 then acc
  else
    let acc :=
      if val < acc.min ∨ acc.has_min = false then { acc with has_min := true, min := val }
      else acc
    let acc := if acc.max < val then { acc with max := val } else acc
    { acc with counts := acc.counts + 1, total := acc.total + val }

/-- The calculateTimes loop over the whole sample array. -/
def calcFold (timings : List Nat) : CalcAcc :=
  timings.foldl calcStep { counts := 0, total := 0, min := 0, max := 0, has_min := false }

/-- calculateTimes (Go lines 169-193): nanosecond statistics converted to
milliseconds.  The average is the truncating Nat division `total / counts`
taken before the conversion; Go's float64 divisions by 1000000 are
modelled in ℚ (the claims only involve exactly representable values). -/
def calculateTimes (timings : List Nat) : ℚ × ℚ × ℚ :=
  let acc := calcFold timings
  let avg : Nat := if 0 < acc.counts then acc.total / acc.counts else 0
  ((acc.min : ℚ) / 1000000, (avg : ℚ) / 1000000, (acc.max : ℚ) / 1000000)

/-- A byte that is neither a quote delimiter, nor a digit, nor a
control-whitespace byte (9-13). -/
def cleanByte (b : Nat) : Bool :=
  decide (b ≠ 39 ∧ b ≠ 34 ∧ ¬(48 ≤ b ∧ b ≤ 57) ∧ ¬(9 ≤ b ∧ b ≤ 13))

/-- A byte that is neither a quote delimiter nor a digit. -/
def noQuoteDigit (b : Nat) : Bool :=
  decide (b ≠ 39 ∧ b ≠ 34 ∧ ¬(48 ≤ b ∧ b ≤ 57))

/-- No two adjacent space bytes. -/
def noDoubleSpace : List Nat → Bool
  | [] => true
  | [_] => true
  | a :: b :: rest => !(a == 32 && b == 32) && noDoubleSpace (b :: rest)

/-- Whether the byte string contains the substring "?, " (bytes 63,44,32). -/
def hasQCS : List Nat → Bool
  | 63 :: 44 :: 32 :: _ => true
  | _ :: rest => hasQCS rest
  | [] => false

/-- The default configuration of the Go program: flags off and the
default format string "#s:#q", which parseFormat compiles to
[F_SOURCE, ":", F_QUERY]. -/
def cfgDefault : Config :=
  { dirty := false, verbose := false, noclean := false,
    format := [.fsource, .lit [58], .fquery] }

/-- The initial globals of the Go process: zero counters, empty qbuf,
zeroed global sample array. -/
def gInit : Globals :=
  { qbuf := [], querycount := 0, times := List.replicate TIME_BUCKETS 0,
    rcvd := 0, rcvd_sync := 0, desyncs := 0, streams := 0 }

/-- Specification-side quote scanner: distance from the current position
to the first matching delimiter whose immediately preceding byte (`prev`
for the head) is not a backslash, counting that delimiter; if none occurs
it counts the whole remaining input. -/
def quoteScan (delim prev : Nat) : List Nat → Nat
  | [] => 0
  | c :: rest => if c = delim ∧ prev ≠ 92 then 1 else 1 + quoteScan delim c rest

/-- C1: for every buffer whose 3-byte little-endian length field L (bytes
0-2) is positive and whose total length is at least L+4 (hence at least 5
bytes), carve succeeds: it returns byte 4 as the command byte together
with the payload occupying bytes 5 ..< L+4 of the L+4-byte frame, and
removes exactly the consumed L+4 bytes from the front of the buffer,
leaving any remainder in place (the buffer becomes nil when it is
consumed exactly). -/
theorem carvePacket_success (buf : List Nat) (L : Nat)
    (hL : L = buf[0]! + buf[1]! * 256 + buf[2]! * 65536)
    (h5 : 5 ≤ buf.length) (hpos : 0 < L) (hlen : L + 4 ≤ buf.length) :
    carvePacket buf =
      ((buf[4]! : Int), (buf.take (L + 4)).drop 5,
        if L + 4 = buf.length then none else some (buf.drop (L + 4))) := by
  have hdata : (buf.take (L + 4)).drop 5 = (buf.drop 5).take (L - 1) := by
    rw [List.drop_take]
    congr 1
  rw [hdata]
  unfold carvePacket
  dsimp only
  rw [← hL]
  rw [if_neg (by omega), if_neg (by omega)]
  by_cases hEq : L + 4 = buf.length
  · rw [if_pos (by omega), if_pos hEq]
  · rw [if_neg (by omega), if_neg hEq]

/-- Witness for carvePacket_success at the concrete buffer
[2,0,0,0,3,97,98,99]: L = 2, command byte 3, payload [97], remainder
[98,99]. -/
theorem carvePacket_success_witness :
    carvePacket [2, 0, 0, 0, 3, 97, 98, 99] =
      (3, [97], some [98, 99]) := by
  have h := carvePacket_success [2, 0, 0, 0, 3, 97, 98, 99] 2
    (by decide) (by decide) (by decide) (by decide)
  simpa using h

/-- C5: carve returns the no-frame result exactly when fewer than 5 bytes
are buffered, or the declared 24-bit length is 0, or the buffer holds
fewer than size+4 bytes; in every such case the buffer is returned
completely untouched (and, being a total function, carve never raises on
an absurdly large declared length). -/
theorem carvePacket_incomplete (buf : List Nat) :
    ((carvePacket buf).1 = -1 ↔
      (buf.length < 5 ∨ buf[0]! + buf[1]! * 256 + buf[2]! * 65536 = 0 ∨
        buf.length < buf[0]! + buf[1]! * 256 + buf[2]! * 65536 + 4)) ∧
    ((buf.length < 5 ∨ buf[0]! + buf[1]! * 256 + buf[2]! * 65536 = 0 ∨
        buf.length < buf[0]! + buf[1]! * 256 + buf[2]! * 65536 + 4) →
      carvePacket buf = (-1, [], some buf)) := by
  unfold carvePacket
  dsimp only
  split_ifs with h1 h2 h3
  · exact ⟨by simp [h1], fun _ => rfl⟩
  · refine ⟨by simp only [true_iff]; omega, fun _ => rfl⟩
  · have hfalse :
        ¬(buf.length < 5 ∨ buf[0]! + buf[1]! * 256 + buf[2]! * 65536 = 0 ∨
          buf.length < buf[0]! + buf[1]! * 256 + buf[2]! * 65536 + 4) := by
      push_neg at h2 ⊢
      exact ⟨by omega, h2.1, by omega⟩
    refine ⟨iff_of_false (fun h => ?_) hfalse, fun h => absurd h hfalse⟩
    simp only at h
  · have hfalse :
        ¬(buf.length < 5 ∨ buf[0]! + buf[1]! * 256 + buf[2]! * 65536 = 0 ∨
          buf.length < buf[0]! + buf[1]! * 256 + buf[2]! * 65536 + 4) := by
      push_neg at h2 ⊢
      exact ⟨by omega, h2.1, by omega⟩
    refine ⟨iff_of_false (fun h => ?_) hfalse, fun h => absurd h hfalse⟩
    simp only at h

/-- Witness for carvePacket_incomplete at [5,0,0,0,3]: declared length 5
exceeds the 5 available bytes, so carve yields the no-frame result with
the buffer untouched. -/
theorem carvePacket_incomplete_witness :
    ((carvePacket [5, 0, 0, 0, 3]).1 = -1 ↔
      (([5, 0, 0, 0, 3] : List Nat).length < 5 ∨ (5 : Nat) + 0 * 256 + 0 * 65536 = 0 ∨
        ([5, 0, 0, 0, 3] : List Nat).length < 5 + 0 * 256 + 0 * 65536 + 4)) ∧
    carvePacket [5, 0, 0, 0, 3] = (-1, [], some [5, 0, 0, 0, 3]) := by
  have h := carvePacket_incomplete [5, 0, 0, 0, 3]
  exact ⟨by simpa using h.1, h.2 (by decide)⟩

/-- C4: canonicalize emits words and other tokens verbatim, replaces
quoted and numeric literals by `?`, collapses whitespace runs to one
space, then applies the route shortening and removes every occurrence of
the substring "?, ": in particular the spec's example query maps to
"SELECT * FROM t WHERE id=? AND name=?"; a tab/space run collapses to one
space; and a placeholder list "IN (1, 2, 3)" collapses to "IN (?)". -/
theorem cleanupQuery_canonicalizes :
    cleanupQuery false false (strBytes "SELECT * FROM t WHERE id=42 AND name='bob'") =
        strBytes "SELECT * FROM t WHERE id=? AND name=?" ∧
    cleanupQuery false false (strBytes "SELECT\t\t*  FROM t") =
        strBytes "SELECT * FROM t" ∧
    cleanupQuery false false (strBytes "IN (1, 2, 3)") = strBytes "IN (?)" := by
  refine ⟨by decide, by decide, by decide⟩

theorem calcStep_zero (s : CalcAcc) : calcStep s 0 = s := by
  simp [calcStep]

theorem calcFold_replicate_zero (n : Nat) (s : CalcAcc) :
    List.foldl calcStep s (List.replicate n 0) = s := by
  induction n with
  | zero => rfl
  | succ k ih => rw [List.replicate_succ, List.foldl_cons, calcStep_zero, ih]

/-- C6: summarize ignores zero-valued slots: over an all-zero array it
returns min=avg=max=0 with zero valid samples; over an array whose single
non-zero slot holds 5000000 nanoseconds it returns min=avg=max=5
milliseconds; and the average is the truncating integer division of the
sum by the count, taken before the conversion to milliseconds (the last
conjunct: samples 1000001 and 1000002 average to 1000001 ns, not
1000001.5 ns). -/
theorem calculateTimes_stats :
    (∀ n : Nat, calculateTimes (List.replicate n 0) = (0, 0, 0)) ∧
    (∀ n : Nat, (calcFold (List.replicate n 0)).counts = 0) ∧
    (∀ a b : Nat,
      calculateTimes (List.replicate a 0 ++ 5000000 :: List.replicate b 0) = (5, 5, 5)) ∧
    calculateTimes [1000001, 1000002, 0] =
      (1000001 / 1000000, 1000001 / 1000000, 1000002 / 1000000) := by
  have hz : ∀ n : Nat, calcFold (List.replicate n 0) =
      { counts := 0, total := 0, min := 0, max := 0, has_min := false } :=
    fun n => calcFold_replicate_zero n _
  have hone : ∀ a b : Nat,
      calcFold (List.replicate a 0 ++ 5000000 :: List.replicate b 0) =
        { counts := 1, total := 5000000, min := 5000000, max := 5000000, has_min := true } := by
    intro a b
    unfold calcFold
    rw [List.foldl_append, calcFold_replicate_zero, List.foldl_cons,
      calcFold_replicate_zero]
    decide
  have hlast : calcFold [1000001, 1000002, 0] =
      { counts := 2, total := 2000003, min := 1000001, max := 1000002, has_min := true } := by
    decide
  refine ⟨fun n => ?_, fun n => by rw [hz], fun a b => ?_, ?_⟩
  · unfold calculateTimes
    rw [hz]
    norm_num
  · unfold calculateTimes
    rw [hone]
    norm_num
  · unfold calculateTimes
    rw [hlast]
    norm_num

theorem scanQuoteLoop_eq_quoteScan (delim totalLen : Nat) (hd : delim ≠ 92) :
    ∀ (l : List Nat) (i prev : Nat) (esc : Bool),
      i + l.length = totalLen → (esc = true ↔ prev = 92) →
      scanQuoteLoop delim totalLen esc i l = i + quoteScan delim prev l := by
  intro l
  induction l with
  | nil =>
    intro i prev esc hlen _
    simp only [List.length_nil] at hlen
    simp only [scanQuoteLoop, quoteScan]
    omega
  | cons c rest ih =>
    intro i prev esc hlen hesc
    simp only [List.length_cons] at hlen
    by_cases hc : c = delim
    · by_cases hp : prev = 92
      · have hesc' : esc = true := hesc.mpr hp
        subst hesc'
        rw [show scanQuoteLoop delim totalLen true i (c :: rest) =
              scanQuoteLoop delim totalLen false (i + 1) rest from by
            simp [scanQuoteLoop, hc]]
        rw [show quoteScan delim prev (c :: rest) = 1 + quoteScan delim c rest from by
            simp [quoteScan, hp]]
        rw [ih (i + 1) c false (by omega) (by simp [hc, hd])]
        omega
      · have hesc' : esc = false := by
          cases esc with
          | false => rfl
          | true => exact absurd (hesc.mp rfl) hp
        subst hesc'
        rw [show scanQuoteLoop delim totalLen false i (c :: rest) = i + 1 from by
            simp [scanQuoteLoop, hc]]
        rw [show quoteScan delim prev (c :: rest) = 1 from by
            simp [quoteScan, hc, hp]]
    · by_cases h92 : c = 92
      · rw [show scanQuoteLoop delim totalLen esc i (c :: rest) =
              scanQuoteLoop delim totalLen true (i + 1) rest from by
            simp [scanQuoteLoop, h92, Ne.symm hd]]
        rw [show quoteScan delim prev (c :: rest) = 1 + quoteScan delim c rest from by
            simp [quoteScan, hc]]
        rw [ih (i + 1) c true (by omega) (by simp [h92])]
        omega
      · rw [show scanQuoteLoop delim totalLen esc i (c :: rest) =
              scanQuoteLoop delim totalLen false (i + 1) rest from by
            simp [scanQuoteLoop, hc, h92]]
        rw [show quoteScan delim prev (c :: rest) = 1 + quoteScan delim c rest from by
            simp [quoteScan, hc]]
        rw [ih (i + 1) c false (by omega) (by simp [h92])]
        omega

/-- C7 counterexample: on the input `'\\'a'` (bytes 39 92 92 39 97 39) the
claim as stated predicts that the delimiter following the doubled
backslash is unescaped and terminates the token with length 4, but
scanToken treats it as escaped (every backslash re-arms the escape flag)
and returns length 6. -/
theorem scanToken_quote_counterexample :
    scanToken false false [39, 92, 92, 39, 97, 39] = (6, TOKEN_QUOTE) ∧
    scanToken false false [39, 92, 92, 39, 97, 39] ≠ (4, TOKEN_QUOTE) := by
  exact ⟨by decide, by decide⟩

/-- C7 amended: for every input beginning with a quote delimiter (' or "),
the tokenizer scans until the first matching delimiter whose immediately
preceding byte is not a backslash (a backslash marks the next byte as
escaped, and a backslash itself is never treated as escaped, so a doubled
backslash leaves a following delimiter escaped), returning the token
length including both delimiters with type quoted-literal; if no such
delimiter occurs it consumes the entire input. -/
theorem scanToken_quote (b : Nat) (rest : List Nat) (hb : b = 39 ∨ b = 34) :
    scanToken false false (b :: rest) = (1 + quoteScan b b rest, TOKEN_QUOTE) := by
  have hb92 : b ≠ 92 := by rcases hb with h | h <;> simp [h]
  simp only [scanToken]
  rw [if_neg (by simp), if_pos hb]
  rw [scanQuoteLoop_eq_quoteScan b (rest.length + 1) hb92 rest 1 b false
    (by omega) (by simp [hb92])]

/-- Witness for scanToken_quote on `'a'`: token length 3. -/
theorem scanToken_quote_witness :
    ((39 : Nat) = 39 ∨ (39 : Nat) = 34) ∧
      scanToken false false [39, 97, 39] = (1 + quoteScan 39 39 [97, 39], TOKEN_QUOTE) :=
  ⟨Or.inl rfl, scanToken_quote 39 [97, 39] (Or.inl rfl)⟩

theorem scanRun_bounds (pred : Nat → Bool) (totalLen : Nat) :
    ∀ (l : List Nat) (i : Nat), i + l.length = totalLen → 1 ≤ i →
      1 ≤ scanRun pred totalLen i l ∧ scanRun pred totalLen i l ≤ totalLen := by
  intro l
  induction l with
  | nil =>
    intro i hlen hi
    simp only [List.length_nil] at hlen
    simp only [scanRun]
    omega
  | cons c rest ih =>
    intro i hlen hi
    simp only [List.length_cons] at hlen
    simp only [scanRun]
    by_cases hp : pred c = true
    · rw [if_pos hp]
      exact ih (i + 1) (by omega) (by omega)
    · rw [if_neg hp]
      omega

theorem scanQuoteLoop_bounds (delim totalLen : Nat) :
    ∀ (l : List Nat) (i : Nat) (esc : Bool), i + l.length = totalLen → 1 ≤ i →
      1 ≤ scanQuoteLoop delim totalLen esc i l ∧
        scanQuoteLoop delim totalLen esc i l ≤ totalLen := by
  intro l
  induction l with
  | nil =>
    intro i esc hlen hi
    simp only [List.length_nil] at hlen
    simp only [scanQuoteLoop]
    omega
  | cons c rest ih =>
    intro i esc hlen hi
    simp only [List.length_cons] at hlen
    simp only [scanQuoteLoop]
    by_cases hc : c = delim
    · rw [if_pos hc]
      by_cases he : esc = true
      · rw [if_pos he]
        exact ih (i + 1) false (by omega) (by omega)
      · rw [if_neg he]
        omega
    · rw [if_neg hc]
      by_cases h92 : c = 92
      · rw [if_pos h92]
        exact ih (i + 1) true (by omega) (by omega)
      · rw [if_neg h92]
        exact ih (i + 1) false (by omega) (by omega)

theorem scanToken_len_bounds (v n : Bool) (q : List Nat) (hq : q ≠ []) :
    1 ≤ (scanToken v n q).1 ∧ (scanToken v n q).1 ≤ q.length := by
  match q with
  | b :: rest =>
    simp only [scanToken, List.length_cons]
    by_cases hvn : (v && n) = true
    · rw [if_pos hvn]
      omega
    · rw [if_neg hvn]
      split_ifs with h1 h2 h3 h4
      · exact scanQuoteLoop_bounds b (rest.length + 1) rest 1 false (by omega) (by omega)
      · exact scanRun_bounds isDigitB (rest.length + 1) rest 1 (by omega) (by omega)
      · exact scanRun_bounds isWhitespaceB (rest.length + 1) rest 1 (by omega) (by omega)
      · exact scanRun_bounds isWordB (rest.length + 1) rest 1 (by omega) (by omega)
      · omega

theorem tokenizeFuel_flatten (v n : Bool) :
    ∀ (fuel : Nat) (q : List Nat), q.length ≤ fuel →
      ((tokenizeFuel v n fuel q).map Prod.fst).flatten = q := by
  intro fuel
  induction fuel with
  | zero =>
    intro q h
    match q with
    | [] => rfl
  | succ k ih =>
    intro q h
    match q with
    | [] => rfl
    | b :: rest =>
      have hne : (b :: rest : List Nat) ≠ [] := by simp
      have hb := scanToken_len_bounds v n (b :: rest) hne
      simp only [tokenizeFuel, List.map_cons, List.flatten_cons]
      rw [ih ((b :: rest).drop (scanToken v n (b :: rest)).1)
        (by simp only [List.length_drop, List.length_cons] at *; omega)]
      exact List.take_append_drop _ _

theorem tokenizeFuel_spans_ne_nil (v n : Bool) :
    ∀ (fuel : Nat) (q : List Nat), ∀ t ∈ tokenizeFuel v n fuel q, t.1 ≠ [] := by
  intro fuel
  induction fuel with
  | zero =>
    intro q t ht
    match q with
    | [] => simp [tokenizeFuel] at ht
    | _ :: _ => simp [tokenizeFuel] at ht
  | succ k ih =>
    intro q t ht
    match q with
    | [] => simp [tokenizeFuel] at ht
    | b :: rest =>
      have hne : (b :: rest : List Nat) ≠ [] := by simp
      have hb := scanToken_len_bounds v n (b :: rest) hne
      simp only [tokenizeFuel, List.mem_cons] at ht
      rcases ht with ht | ht
      · subst ht
        simp only [ne_eq, List.take_eq_nil_iff]
        push_neg
        constructor <;> [omega; simp]
      · exact ih _ t ht

/-- C10: for every non-empty byte sequence the tokenizer returns a token
length between 1 and the input length, so the canonicalizer's
tokenization loop strictly advances and terminates; and the token spans
partition the entire input: their concatenation is exactly the input (no
byte skipped or read twice) and every span is non-empty. -/
theorem scanToken_advances_and_partitions (v n : Bool) (q : List Nat) :
    (q ≠ [] → 1 ≤ (scanToken v n q).1 ∧ (scanToken v n q).1 ≤ q.length) ∧
    ((tokenize v n q).map Prod.fst).flatten = q ∧
    (∀ t ∈ tokenize v n q, t.1 ≠ []) :=
  ⟨fun hq => scanToken_len_bounds v n q hq,
   tokenizeFuel_flatten v n q.length q le_rfl,
   tokenizeFuel_spans_ne_nil v n q.length q⟩

/-- Witness for scanToken_advances_and_partitions on the one-byte input
[97]. -/
theorem scanToken_advances_witness :
    ([97] : List Nat) ≠ [] ∧
      (1 ≤ (scanToken false false [97]).1 ∧
        (scanToken false false [97]).1 ≤ ([97] : List Nat).length) :=
  ⟨by decide, (scanToken_advances_and_partitions false false [97]).1 (by decide)⟩

theorem noDoubleSpace_tail (b : Nat) (l : List Nat)
    (h : noDoubleSpace (b :: l) = true) : noDoubleSpace l = true := by
  match l with
  | [] => rfl
  | c :: r =>
    simp only [noDoubleSpace, Bool.and_eq_true] at h
    exact h.2

theorem noDoubleSpace_drop (n : Nat) :
    ∀ (l : List Nat), noDoubleSpace l = true → noDoubleSpace (l.drop n) = true := by
  induction n with
  | zero => intro l h; exact h
  | succ k ih =>
    intro l h
    match l with
    | [] => rfl
    | c :: r =>
      rw [List.drop_succ_cons]
      exact ih r (noDoubleSpace_tail c r h)

theorem all_drop (p : Nat → Bool) (n : Nat) :
    ∀ (l : List Nat), l.all p = true → (l.drop n).all p = true := by
  induction n with
  | zero => intro l h; exact h
  | succ k ih =>
    intro l h
    match l with
    | [] => rfl
    | c :: r =>
      rw [List.drop_succ_cons]
      simp only [List.all_cons, Bool.and_eq_true] at h
      exact ih r h.2

theorem replaceQMark_id (l : List Nat) (h : hasQCS l = false) : replaceQMark l = l := by
  induction l using replaceQMark.induct with
  | case1 rest ih => simp [hasQCS] at h
  | case2 c rest hne ih =>
    rw [replaceQMark]
    · rw [hasQCS] at h
      · rw [ih h]
      · exact hne
    · exact hne
  | case3 => rfl

theorem tokenEmit_word (span : List Nat) : tokenEmit span TOKEN_WORD = span := by
  simp [tokenEmit, TOKEN_WORD, TOKEN_OTHER]

theorem tokenEmit_other (span : List Nat) : tokenEmit span TOKEN_OTHER = span := by
  simp [tokenEmit, TOKEN_WORD, TOKEN_OTHER]

theorem tokenizeFuel_emit_clean :
    ∀ (fuel : Nat) (x : List Nat), x.length ≤ fuel → x.all cleanByte = true →
      noDoubleSpace x = true →
      ((tokenizeFuel false false fuel x).map fun p => tokenEmit p.1 p.2).flatten = x := by
  intro fuel
  induction fuel with
  | zero =>
    intro x hlen _ _
    match x with
    | [] => rfl
  | succ k ih =>
    intro x hlen hclean hspace
    match x with
    | [] => rfl
    | b :: rest =>
      simp only [List.all_cons, Bool.and_eq_true] at hclean
      obtain ⟨hcb, hcrest⟩ := hclean
      have hcb' := of_decide_eq_true hcb
      obtain ⟨h39, h34, hdig, hctl⟩ := hcb'
      simp only [List.length_cons] at hlen
      have hne : (b :: rest : List Nat) ≠ [] := by simp
      simp only [tokenizeFuel, List.map_cons, List.flatten_cons]
      by_cases hb32 : b = 32
      · -- whitespace: by noDoubleSpace and cleanByte the run has length 1
        subst hb32
        have hrun : scanRun isWhitespaceB (rest.length + 1) 1 rest = 1 := by
          match rest with
          | [] => rfl
          | c :: r =>
            have hcc := of_decide_eq_true
              (by simp only [List.all_cons, Bool.and_eq_true] at hcrest; exact hcrest.1)
            have hc32 : c ≠ 32 := by
              intro hc
              subst hc
              simp [noDoubleSpace] at hspace
            obtain ⟨hcc1, hcc2, hcc3, hcc4⟩ := hcc
            have : isWhitespaceB c = false := by
              simp only [isWhitespaceB, decide_eq_false_iff_not]
              omega
            simp [scanRun, this]
        have hst : scanToken false false (32 :: rest) = (1, TOKEN_WHITESPACE) := by
          simp only [scanToken]
          rw [if_neg (by simp), if_neg (by decide), if_neg (by decide)]
          rw [if_pos (Or.inl trivial), hrun]
        rw [hst]
        simp only [List.take_succ_cons, List.take_zero, List.drop_succ_cons, List.drop_zero]
        rw [ih rest (by omega) hcrest (noDoubleSpace_tail 32 rest hspace)]
        rw [show tokenEmit [32] TOKEN_WHITESPACE = [32] from by decide]
        rfl
      · by_cases hw : (65 ≤ b ∧ b ≤ 90) ∨ (97 ≤ b ∧ b ≤ 122)
        · -- word token: emitted verbatim, any run length
          have hst : scanToken false false (b :: rest) =
              (scanRun isWordB (rest.length + 1) 1 rest, TOKEN_WORD) := by
            simp only [scanToken]
            rw [if_neg (by simp), if_neg (by omega), if_neg hdig,
              if_neg (by omega), if_pos hw]
          have hlb := scanToken_len_bounds false false (b :: rest) hne
          rw [hst] at hlb ⊢
          simp only [List.length_cons] at hlb
          rw [tokenEmit_word]
          rw [ih ((b :: rest).drop (scanRun isWordB (rest.length + 1) 1 rest))
            (by simp only [List.length_drop, List.length_cons]; omega)
            (all_drop cleanByte _ _ (by simp only [List.all_cons, Bool.and_eq_true]; exact ⟨hcb, hcrest⟩))
            (noDoubleSpace_drop _ _ hspace)]
          exact List.take_append_drop _ _
        · -- other token: single byte emitted verbatim
          have hst : scanToken false false (b :: rest) = (1, TOKEN_OTHER) := by
            simp only [scanToken]
            rw [if_neg (by simp), if_neg (by omega), if_neg hdig,
              if_neg (by omega), if_neg hw]
          rw [hst]
          simp only [List.take_succ_cons, List.take_zero, List.drop_succ_cons, List.drop_zero]
          rw [tokenEmit_other]
          rw [ih rest (by omega) hcrest (noDoubleSpace_tail b rest hspace)]
          rfl

/-- C9 counterexample: x = "??, , x" is an already-canonical text (it is
cleanupQuery of "???, , , x") containing no quote-delimiter and no digit
bytes, yet canonicalize is not idempotent on it: cleanupQuery x = "?, x"
while cleanupQuery (cleanupQuery x) = "x". -/
theorem cleanupQuery_not_idempotent :
    cleanupQuery false false (strBytes "???, , , x") = strBytes "??, , x" ∧
    (strBytes "??, , x").all noQuoteDigit = true ∧
    cleanupQuery false false (cleanupQuery false false (strBytes "??, , x")) ≠
      cleanupQuery false false (strBytes "??, , x") :=
  ⟨by decide, by decide, by decide⟩

/-- C9 amended: the removal of "?, " can leave a fresh occurrence of
"?, " in canonical output, so idempotence needs stronger hypotheses than
"no quote or digit characters": for every text x containing no
quote-delimiter, digit, or control-whitespace byte, with no two adjacent
spaces, not containing the substring "?, ", and left unchanged by the
route-annotation rewrite, canonicalize leaves x unchanged, and hence
canonicalize (canonicalize x) = canonicalize x. -/
theorem cleanupQuery_idempotent_on_clean (x : List Nat)
    (hbytes : x.all cleanByte = true)
    (hspace : noDoubleSpace x = true)
    (hroute : routeShorten x = x)
    (hq : hasQCS x = false) :
    cleanupQuery false false x = x ∧
      cleanupQuery false false (cleanupQuery false false x) =
        cleanupQuery false false x := by
  have hx : cleanupQuery false false x = x := by
    unfold cleanupQuery tokenize
    dsimp only
    rw [tokenizeFuel_emit_clean x.length x le_rfl hbytes hspace, hroute,
      replaceQMark_id x hq]
  exact ⟨hx, by rw [hx]; exact hx⟩

/-- Witness for cleanupQuery_idempotent_on_clean at the canonical text
"SELECT * FROM t WHERE id=? AND name=?". -/
theorem cleanupQuery_idempotent_witness :
    ((strBytes "SELECT * FROM t WHERE id=? AND name=?").all cleanByte = true ∧
      noDoubleSpace (strBytes "SELECT * FROM t WHERE id=? AND name=?") = true ∧
      routeShorten (strBytes "SELECT * FROM t WHERE id=? AND name=?") =
        strBytes "SELECT * FROM t WHERE id=? AND name=?" ∧
      hasQCS (strBytes "SELECT * FROM t WHERE id=? AND name=?") = false) ∧
    (cleanupQuery false false (strBytes "SELECT * FROM t WHERE id=? AND name=?") =
        strBytes "SELECT * FROM t WHERE id=? AND name=?" ∧
      cleanupQuery false false
          (cleanupQuery false false (strBytes "SELECT * FROM t WHERE id=? AND name=?")) =
        cleanupQuery false false (strBytes "SELECT * FROM t WHERE id=? AND name=?")) :=
  ⟨⟨by decide, by decide, by decide, by decide⟩,
    cleanupQuery_idempotent_on_clean (strBytes "SELECT * FROM t WHERE id=? AND name=?")
      (by decide) (by decide) (by decide) (by decide)⟩

theorem processAfterSync_synced (cfg : Config) (g : Globals) (rs : source)
    (request : Bool) (ptype : Int) (pdata : List Nat) (now randn : Nat) :
    ((processAfterSync cfg g rs request ptype pdata now randn).2).synced = rs.synced := by
  unfold processAfterSync
  dsimp only
  split
  · rfl
  · split
    · rfl
    · cases h : rs.reqSent with
      | none => cases h2 : rs.qdata <;> simp [h2]
      | some t0 => rfl

theorem processAfterSync_desyncs (cfg : Config) (g : Globals) (rs : source)
    (request : Bool) (ptype : Int) (pdata : List Nat) (now randn : Nat) :
    (processAfterSync cfg g rs request ptype pdata now randn).1.desyncs = g.desyncs := by
  unfold processAfterSync
  dsimp only
  split
  · rfl
  · split
    · rfl
    · cases h : rs.reqSent with
      | none => cases h2 : rs.qdata <;> simp [h2]
      | some t0 => cases h2 : rs.qdata <;> simp [h2]

theorem processAfterSync_resbuffer (cfg : Config) (g : Globals) (rs : source)
    (request : Bool) (ptype : Int) (pdata : List Nat) (now randn : Nat) :
    ((processAfterSync cfg g rs request ptype pdata now randn).2).resbuffer = rs.resbuffer := by
  unfold processAfterSync
  dsimp only
  split
  · rfl
  · split
    · rfl
    · cases h : rs.reqSent with
      | none => cases h2 : rs.qdata <;> simp [h2]
      | some t0 => rfl

theorem processPacket_unsynced_step (cfg : Config) (g : Globals) (rs : source)
    (request : Bool) (data : List Nat) (now randn : Nat)
    (hsync : rs.synced = false) (hres : rs.resbuffer = none)
    (hnq : ¬(request = true ∧ (carvePacket data).1 = COM_QUERY)) :
    processPacket cfg g rs request data now randn =
      ({ g with rcvd := g.rcvd + 1 },
        { rs with reqbuffer := none, resbuffer := none }) := by
  unfold processPacket
  dsimp only
  cases request
  · simp [hsync]
  · have hnq' : ¬((carvePacket data).1 = COM_QUERY) := fun h => hnq ⟨rfl, h⟩
    simp [hsync, hres, hnq']

theorem runCalls_unsynced (cfg : Config) (src srcip : List Nat) :
    ∀ (calls : List Call) (g : Globals), (∀ c ∈ calls, ¬ carvesQuery c) →
      runCalls cfg g (newSource src srcip) calls =
        ({ g with rcvd := g.rcvd + calls.length }, newSource src srcip) := by
  intro calls
  induction calls with
  | nil => intro g _; rfl
  | cons c rest ih =>
    intro g h
    have hstep := processPacket_unsynced_step cfg g (newSource src srcip)
      c.request c.data c.now c.randn rfl rfl (h c (List.mem_cons_self c rest))
    have hbuf : ({ newSource src srcip with reqbuffer := none, resbuffer := none } : source) =
        newSource src srcip := rfl
    rw [runCalls]
    rw [hstep, hbuf, ih { g with rcvd := g.rcvd + 1 }
      (fun x hx => h x (List.mem_cons_of_mem c hx))]
    simp only [List.length_cons]
    rw [show g.rcvd + 1 + rest.length = g.rcvd + (rest.length + 1) from by omega]

theorem processPacket_unsynced_query (cfg : Config) (g : Globals) (rs : source)
    (data : List Nat) (now randn : Nat)
    (hsync : rs.synced = false) (hres : rs.resbuffer = none)
    (hq : (carvePacket data).1 = COM_QUERY) :
    ((processPacket cfg g rs true data now randn).2).synced = true := by
  unfold processPacket
  dsimp only
  simp [hres, hsync, hq, processAfterSync_synced]

/-- C2: a flow created in the Unsynced state stays Unsynced, with both
buffers empty and every other flow field (and the desync counter, query
count, qbuf and global samples) unchanged, across any sequence of
ingestion calls none of which is a request-direction call whose chunk
carves a frame with command byte COM_QUERY; any single non-carving call
on an unsynced flow merely clears both buffers; and the first
request-direction call whose chunk does carve a COM_QUERY frame sets the
flow to Synced in that same call. -/
theorem flow_unsynced_until_query (cfg : Config) (g : Globals)
    (src srcip : List Nat) (calls : List Call) (c : Call) (rs : source)
    (hcalls : ∀ x ∈ calls, ¬ carvesQuery x)
    (hsync : rs.synced = false) (hres : rs.resbuffer = none) :
    (runCalls cfg g (newSource src srcip) calls =
      ({ g with rcvd := g.rcvd + calls.length }, newSource src srcip)) ∧
    (¬ carvesQuery c →
      processPacket cfg g rs c.request c.data c.now c.randn =
        ({ g with rcvd := g.rcvd + 1 },
          { rs with reqbuffer := none, resbuffer := none })) ∧
    (carvesQuery c →
      ((processPacket cfg g rs c.request c.data c.now c.randn).2).synced = true) := by
  refine ⟨runCalls_unsynced cfg src srcip calls g hcalls, ?_, ?_⟩
  · intro hnc
    exact processPacket_unsynced_step cfg g rs c.request c.data c.now c.randn
      hsync hres hnc
  · intro hc
    have hreq : c.request = true := hc.1
    rw [hreq]
    exact processPacket_unsynced_query cfg g rs c.data c.now c.randn hsync hres hc.2

/-- Witness for flow_unsynced_until_query: one response call keeps the
fresh flow Unsynced and untouched; a following request call whose chunk
[2,0,0,0,3,99,100] carves a COM_QUERY frame sets it to Synced. -/
theorem flow_unsynced_witness :
    ((∀ x ∈ ([⟨false, [1, 2, 3], 0, 0⟩] : List Call), ¬ carvesQuery x) ∧
      (newSource [7] [7]).synced = false ∧ (newSource [7] [7]).resbuffer = none) ∧
    ((runCalls cfgDefault gInit (newSource [7] [7]) [⟨false, [1, 2, 3], 0, 0⟩] =
        ({ gInit with rcvd := gInit.rcvd + ([⟨false, [1, 2, 3], 0, 0⟩] : List Call).length },
          newSource [7] [7])) ∧
      (¬ carvesQuery ⟨true, [2, 0, 0, 0, 3, 99, 100], 5, 0⟩ →
        processPacket cfgDefault gInit (newSource [7] [7]) true [2, 0, 0, 0, 3, 99, 100] 5 0 =
          ({ gInit with rcvd := gInit.rcvd + 1 },
            { newSource [7] [7] with reqbuffer := none, resbuffer := none })) ∧
      (carvesQuery ⟨true, [2, 0, 0, 0, 3, 99, 100], 5, 0⟩ →
        ((processPacket cfgDefault gInit (newSource [7] [7])
            true [2, 0, 0, 0, 3, 99, 100] 5 0).2).synced = true)) :=
  ⟨⟨by decide, rfl, rfl⟩,
    flow_unsynced_until_query cfgDefault gInit [7] [7]
      [⟨false, [1, 2, 3], 0, 0⟩] ⟨true, [2, 0, 0, 0, 3, 99, 100], 5, 0⟩
      (newSource [7] [7]) (by decide) rfl rfl⟩

/-- C3 counterexample: a response-direction chunk arriving on a flow that
already has an unresolved pending response buffer does NOT increment the
desync counter and does not force the flow to Unsynced (the code's desync
check runs in the request-direction branch only): on this flow the
counter stays 0 instead of becoming 1 and the flow stays Synced. -/
theorem desync_response_counterexample :
    (({ newSource [7] [7] with synced := true, resbuffer := some [1] } : source)).resbuffer.isSome
        = true ∧
    (processPacket cfgDefault gInit
        { newSource [7] [7] with synced := true, resbuffer := some [1] }
        false [9, 9] 5 0).1.desyncs = 0 ∧
    ¬((processPacket cfgDefault gInit
        { newSource [7] [7] with synced := true, resbuffer := some [1] }
        false [9, 9] 5 0).1.desyncs = gInit.desyncs + 1) ∧
    ((processPacket cfgDefault gInit
        { newSource [7] [7] with synced := true, resbuffer := some [1] }
        false [9, 9] 5 0).2).synced = true :=
  ⟨rfl, rfl, by decide, rfl⟩

/-- C3 amended: the desync check runs on request-direction chunks: when a
request-direction chunk arrives on a flow that still has an unresolved
pending response buffer, the global desync counter increments by exactly
one, the pending response buffer is cleared, and the flow is forced to
Unsynced before the chunk is processed (so after the call the flow is
Synced exactly when that same chunk carves a COM_QUERY frame); no other
ingestion outcome changes the desync counter. -/
theorem desync_on_request_with_pending_response (cfg : Config) (g : Globals)
    (rs : source) (data : List Nat) (now randn : Nat) :
    (rs.resbuffer.isSome = true →
      (processPacket cfg g rs true data now randn).1.desyncs = g.desyncs + 1 ∧
      ((processPacket cfg g rs true data now randn).2).resbuffer = none ∧
      (((processPacket cfg g rs true data now randn).2).synced = true ↔
        (carvePacket data).1 = COM_QUERY)) ∧
    (∀ request : Bool, ¬(request = true ∧ rs.resbuffer.isSome = true) →
      (processPacket cfg g rs request data now randn).1.desyncs = g.desyncs) := by
  constructor
  · intro hres
    unfold processPacket
    dsimp only
    by_cases hq : (carvePacket data).1 = COM_QUERY
    · simp [hres, hq, processAfterSync_desyncs, processAfterSync_resbuffer,
        processAfterSync_synced]
    · simp [hres, hq, processAfterSync_desyncs, processAfterSync_resbuffer,
        processAfterSync_synced]
  · intro request hnr
    cases request
    · unfold processPacket
      dsimp only
      cases hs : rs.synced
      · simp [hs, processAfterSync_desyncs]
      · simp [hs, processAfterSync_desyncs]
    · have hres : rs.resbuffer.isSome = false := by
        cases h : rs.resbuffer.isSome
        · rfl
        · exact absurd ⟨rfl, h⟩ hnr
      unfold processPacket
      dsimp only
      cases hs : rs.synced
      · by_cases hq : (carvePacket data).1 = COM_QUERY
        · simp [hres, hs, hq, processAfterSync_desyncs]
        · simp [hres, hs, hq, processAfterSync_desyncs]
      · simp [hres, hs, processAfterSync_desyncs]

/-- Witness for desync_on_request_with_pending_response: a request chunk
on a flow with a pending response buffer bumps the desync counter to 1
and clears the buffer; a response chunk on the same flow leaves the
counter unchanged. -/
theorem desync_on_request_witness :
    (({ newSource [7] [7] with resbuffer := some [5] } : source)).resbuffer.isSome = true ∧
    ((processPacket cfgDefault gInit { newSource [7] [7] with resbuffer := some [5] }
        true [9, 9] 5 0).1.desyncs = gInit.desyncs + 1 ∧
      ((processPacket cfgDefault gInit { newSource [7] [7] with resbuffer := some [5] }
        true [9, 9] 5 0).2).resbuffer = none ∧
      (((processPacket cfgDefault gInit { newSource [7] [7] with resbuffer := some [5] }
        true [9, 9] 5 0).2).synced = true ↔
        (carvePacket [9, 9]).1 = COM_QUERY)) ∧
    ((processPacket cfgDefault gInit { newSource [7] [7] with resbuffer := some [5] }
        false [9, 9] 5 0).1.desyncs = gInit.desyncs) :=
  ⟨rfl,
    (desync_on_request_with_pending_response cfgDefault gInit
      { newSource [7] [7] with resbuffer := some [5] } [9, 9] 5 0).1 rfl,
    (desync_on_request_with_pending_response cfgDefault gInit
      { newSource [7] [7] with resbuffer := some [5] } [9, 9] 5 0).2 false (by simp)⟩

end MysqlSniffer
